import Mathlib

/-!
# Link store and link checker

A shallow embedding of `storage/storage.go` and of `LinkChecker.checkLink` from
`checker/checker.go`, followed by the properties of the link store that the
specification states.

Modelling conventions.

* Go `string` values are Lean `String`s.  The only bytewise operations of the source are
  `raw[0] != 'h'`, `strings.HasPrefix` with an ASCII argument, concatenation and `==`; on
  UTF-8 text the first byte is `0x68` exactly when the first character is `h`, and an ASCII
  string is a byte prefix exactly when it is a character prefix.  URLs reach the store and
  the worker through `encoding/json`, which yields valid UTF-8.
* Go `int` values are Lean `Int`s.  The only arithmetic of the source is `s.nextID++`.
  `SaveLinks64` computes it as the 64-bit `int` does, wrapping from `2^63 - 1` to `-2^63`;
  `SaveLinks` computes it without wrap-around, which is the same whenever the counter is
  below `2^63 - 1` (`SaveLinks64_eq_SaveLinks`), as it is in a store that started at 1 and
  has seen fewer than `2^63 - 2` saves.
* `time.Now()` is an input of the operation that reads the clock (`Time` is an abstract
  instant).
* The mutex `mu` serialises the methods of `fileStorage`; each method is modelled as one
  atomic step from store to store, returning the new store next to the Go results.
* A Go `error` is `Option Error`, `none` being `nil`.
* The file behind `filePath` is an explicit value of type `File`.
-/

namespace storage

/-- Go `type LinkStatus string`. -/
abbrev LinkStatus := String

def StatusAvailable : LinkStatus := "available"

def StatusUnavailable : LinkStatus := "unavailable"

def StatusPending : LinkStatus := "pending"

/-- Go `time.Time`, kept abstract. -/
abbrev Time := Nat

structure LinkResult where
  URL : String
  Status : LinkStatus
deriving DecidableEq

structure LinkSet where
  ID : Int
  Links : List LinkResult
  CreatedAt : Time
  UpdatedAt : Time
deriving DecidableEq

/-- Go `map[int]*LinkSet` as an association list; the first entry of a key is its value.
The stored pointers are never nil (only `SaveLinks` and the JSON decoder create them). -/
abbrev SetMap := List (Int × LinkSet)

/-- Map read `m[id]` (the comma-ok form: `none` is `ok == false`). -/
def mapGet : SetMap → Int → Option LinkSet
  | [], _ => none
  | (k, v) :: m, id => if k = id then some v else mapGet m id

/-- Map write `m[id] = v`: replaces the value of an existing key, else adds the key. -/
def mapSet : SetMap → Int → LinkSet → SetMap
  | [], id, v => [(id, v)]
  | (k, w) :: m, id, v => if k = id then (id, v) :: m else (k, w) :: mapSet m id v

/-- The errors built with `fmt.Errorf` in `storage.go`, one constructor per format string. -/
inductive Error where
  /-- The message "cannot update link status for id %d". -/
  | cannotUpdate (id : Int)
  /-- The message "url %s is not found in set %d". -/
  | urlNotFound (url : String) (id : Int)
  /-- The message "cannot create file: %s". -/
  | cannotCreateFile
  /-- The message "cannot open file: %s". -/
  | cannotOpenFile
  /-- The message "cannot decode file: %s". -/
  | cannotDecodeFile
deriving DecidableEq

structure fileStorage where
  sets : SetMap
  nextID : Int
  filePath : String
deriving DecidableEq

def NewFileStorage (filePath : String) : fileStorage :=
  { sets := [], nextID := 1, filePath := filePath }

/-- Source lines 189-194: a non-empty string whose first byte is not `h` gets "http://"
in front of it, every other string is returned as it is. -/
def normalizeURL (raw : String) : String :=
  if raw.length > 0 ∧ raw.data.head? ≠ some 'h' then "http://" ++ raw else raw

/-- The loop `for i, url := range urls { results[i] = LinkResult{...} }` of `SaveLinks`,
started at index `i`. -/
def saveLoop : List String → Nat → List LinkResult → List LinkResult
  | [], _, results => results
  | url :: rest, i, results =>
    saveLoop rest (i + 1) (results.set i { URL := normalizeURL url, Status := StatusPending })

/-- `fileStorage.SaveLinks`; `createdAt` and `updatedAt` are its two clock reads. The
result is the new store, the returned id and the returned error. The counter is
incremented without wrap-around; `SaveLinks64` is the same function with the wrap. -/
def fileStorage.SaveLinks (s : fileStorage) (urls : List String) (createdAt updatedAt : Time) :
    fileStorage × Int × Option Error :=
  let id := s.nextID
  let nextID := s.nextID + 1
  -- make([]LinkResult, len(urls)): zero values
  let results := saveLoop urls 0 (List.replicate urls.length { URL := "", Status := "" })
  let set : LinkSet := { ID := id, Links := results, CreatedAt := createdAt, UpdatedAt := updatedAt }
  ({ s with sets := mapSet s.sets id set, nextID := nextID }, id, none)

/-- The largest Go `int` on a 64-bit target, `2^63 - 1`. -/
def maxInt : Int := 9223372036854775807

/-- The smallest Go `int` on a 64-bit target, `-2^63`. -/
def minInt : Int := -9223372036854775808

/-- The value that 64-bit `int` arithmetic leaves when the exact result is `n`: the
integer between `minInt` and `maxInt` that differs from `n` by a multiple of `2^64`. -/
def wrapInt (n : Int) : Int := (n - minInt) % 18446744073709551616 + minInt

/-- `fileStorage.SaveLinks` with `s.nextID++` computed in the 64-bit `int`; every other
line is as in `SaveLinks`. -/
def fileStorage.SaveLinks64 (s : fileStorage) (urls : List String) (createdAt updatedAt : Time) :
    fileStorage × Int × Option Error :=
  let id := s.nextID
  let nextID := wrapInt (s.nextID + 1)
  -- make([]LinkResult, len(urls)): zero values
  let results := saveLoop urls 0 (List.replicate urls.length { URL := "", Status := "" })
  let set : LinkSet := { ID := id, Links := results, CreatedAt := createdAt, UpdatedAt := updatedAt }
  ({ s with sets := mapSet s.sets id set, nextID := nextID }, id, none)

def fileStorage.GetLinkSets (s : fileStorage) (ids : List Int) : List LinkSet × Option Error :=
  (ids.filterMap (mapGet s.sets), none)

def fileStorage.GetLinkSet (s : fileStorage) (id : Int) : Option LinkSet :=
  mapGet s.sets id

/-- The loop `for i := range set.Links` of `UpdateLinkStatus`: the first link whose URL is
`normUrl` gets `status` and the loop returns; `none` when the loop runs to its end. -/
def updateLoop : List LinkResult → String → LinkStatus → Option (List LinkResult)
  | [], _, _ => none
  | l :: rest, normUrl, status =>
    if l.URL = normUrl then some ({ l with Status := status } :: rest)
    else (updateLoop rest normUrl status).map (fun rest' => l :: rest')

/-- `fileStorage.UpdateLinkStatus`; `now` is its clock read. The set is mutated through
the pointer held by the map, which in a value model is a write of the changed set under
the same key. -/
def fileStorage.UpdateLinkStatus (s : fileStorage) (id : Int) (url : String)
    (status : LinkStatus) (now : Time) : fileStorage × Option Error :=
  match mapGet s.sets id with
  | none => (s, some (Error.cannotUpdate id))
  | some set =>
    let normUrl := normalizeURL url
    match updateLoop set.Links normUrl status with
    | some links =>
      ({ s with sets := mapSet s.sets id { set with Links := links, UpdatedAt := now } }, none)
    | none => (s, some (Error.urlNotFound url id))

/-- A value of a member of the top-level JSON object of the snapshot file. The object
under the key written for the sets is kept as the map it encodes: `Backup` and `Restore`
both use the Go type `map[int]*LinkSet` for it, with the same tags on `LinkSet`. -/
inductive JSONValue where
  | null
  | number (n : Int)
  | setsObject (m : SetMap)
  | other
deriving DecidableEq

/-- The file at `filePath`. -/
inductive File where
  /-- No such file: `os.IsNotExist(err)`. -/
  | missing
  /-- The file exists and `os.Open` fails. -/
  | unreadable
  /-- No JSON value in the file: the decoder returns `io.EOF`. -/
  | empty
  /-- The JSON value `null`, which the decoder accepts and which sets no field. -/
  | null
  /-- Neither a JSON object nor `null`. -/
  | malformed
  /-- A JSON object, as the list of its members in file order. -/
  | object (members : List (String × JSONValue))
deriving DecidableEq

/-- `fileStorage.Backup`: the anonymous struct has the tags "sets" and "next_id", so these
are the keys of the object written. `createOK` says whether `os.Create` succeeds and
`disk` is the file before the call. The result is the file after the call and the error. -/
def fileStorage.Backup (s : fileStorage) (disk : File) (createOK : Bool) : File × Option Error :=
  if createOK then
    (File.object [("sets", JSONValue.setsObject s.sets), ("next_id", JSONValue.number s.nextID)],
      none)
  else (disk, some Error.cannotCreateFile)

/-- The anonymous struct `data` of `Restore`: fields `Sets` and `NextID`, no tags. `none`
is the nil map. -/
structure restoreData where
  Sets : Option SetMap
  NextID : Int
deriving DecidableEq

/-- Case folding of one character of a JSON key. `encoding/json` folds by Unicode simple
case folding; the characters that fold together with an ASCII letter are the two cases of
the letter and, for `s` and `k`, the long s (U+017F) and the Kelvin sign (U+212A). The
field names of `Restore` are ASCII, so no other folding can make a key match. -/
def foldRune (c : Char) : Char :=
  if c = Char.ofNat 0x17F then 's'
  else if c = Char.ofNat 0x212A then 'k'
  else c.toLower

/-- Case folding of a JSON key, as `encoding/json` folds names for matching. -/
def foldName (name : String) : String := String.mk (name.data.map foldRune)

/-- The field matching of `encoding/json`: a key selects the struct field whose JSON name
(the Go field name when there is no tag) equals it, exactly or up to case. -/
def matchesField (key fieldName : String) : Bool :=
  key == fieldName || foldName key == foldName fieldName

/-- Decoding a JSON value into the field `Sets`: `null` makes the map nil, an object of
sets is put into a new map when the field is nil and is merged into the map of the field
otherwise (the members of the object win), and any other value is a decoding error
(`none`). -/
def decodeSets : JSONValue → restoreData → Option restoreData
  | JSONValue.null, data => some { data with Sets := none }
  | JSONValue.setsObject m, data =>
    match data.Sets with
    | none => some { data with Sets := some m }
    | some old => some { data with Sets := some (m.foldl (fun acc p => mapSet acc p.1 p.2) old) }
  | JSONValue.number _, _ => none
  | JSONValue.other, _ => none

/-- Decoding a JSON value into the field `NextID`: `null` leaves the field as it is, a
value that is not a number is a decoding error (`none`). -/
def decodeNextID : JSONValue → restoreData → Option restoreData
  | JSONValue.null, data => some data
  | JSONValue.number n, data => some { data with NextID := n }
  | JSONValue.setsObject _, _ => none
  | JSONValue.other, _ => none

/-- Decoding one member of a JSON object into `data`; a key that matches no field is
skipped. -/
def decodeMember (key : String) (v : JSONValue) (data : restoreData) : Option restoreData :=
  if matchesField key "Sets" then decodeSets v data
  else if matchesField key "NextID" then decodeNextID v data
  else some data

/-- Decoding the members of a JSON object into `data`, member by member in file order. -/
def decodeMembers : List (String × JSONValue) → restoreData → Option restoreData
  | [], data => some data
  | (key, v) :: rest, data => (decodeMember key v data).bind (decodeMembers rest)

/-- `fileStorage.Restore` over the file `disk`. -/
def fileStorage.Restore (s : fileStorage) (disk : File) : fileStorage × Option Error :=
  match disk with
  | File.missing => (s, none)
  | File.unreadable => (s, some Error.cannotOpenFile)
  | File.malformed => (s, some Error.cannotDecodeFile)
  | File.empty => (s, none)
  | File.null => (s, none)
  | File.object members =>
    match decodeMembers members { Sets := none, NextID := 0 } with
    | none => (s, some Error.cannotDecodeFile)
    | some data =>
      let s1 := match data.Sets with
        | some m => { s with sets := m }
        | none => s
      let s2 := if data.NextID > 0 then { s1 with nextID := data.NextID } else s1
      (s2, none)

/-- A simulated restart, as `main.go` does it: `Backup` at shutdown, then `Restore` of the
written file into a new store made by `NewFileStorage` for the same path. -/
def restart (s : fileStorage) : fileStorage :=
  ((NewFileStorage s.filePath).Restore (s.Backup File.missing true).1).1

/-- The arguments of one `UpdateLinkStatus` call, with its clock read. -/
structure UpdateCall where
  id : Int
  url : String
  status : LinkStatus
  now : Time
deriving DecidableEq

/-- The store after a sequence of `UpdateLinkStatus` calls, whatever each one returns. -/
def runUpdates (s : fileStorage) (calls : List UpdateCall) : fileStorage :=
  calls.foldl (fun t c => (t.UpdateLinkStatus c.id c.url c.status c.now).1) s

/-- A mutating store operation with its arguments and clock reads. -/
inductive Op where
  | save (urls : List String) (createdAt updatedAt : Time)
  | update (id : Int) (url : String) (status : LinkStatus) (now : Time)
deriving DecidableEq

/-- The store after one operation. -/
def step (s : fileStorage) : Op → fileStorage
  | Op.save urls createdAt updatedAt => (s.SaveLinks urls createdAt updatedAt).1
  | Op.update id url status now => (s.UpdateLinkStatus id url status now).1

/-- The store after a sequence of operations. -/
def run (s : fileStorage) (ops : List Op) : fileStorage := ops.foldl step s

/-- The stores that a fresh store reaches by `SaveLinks` and `UpdateLinkStatus` calls. -/
def Reachable (s : fileStorage) : Prop :=
  ∃ path ops, run (NewFileStorage path) ops = s

/-- The link at index `i` of the set stored under `id`. -/
def linkAt (s : fileStorage) (id : Int) (i : Nat) : Option LinkResult :=
  (s.GetLinkSet id).bind (fun set => set.Links[i]?)

end storage

namespace checker

open storage

/-- Go `strings.HasPrefix`. -/
def HasPrefix (s pre : String) : Bool := pre.data.isPrefixOf s.data

/-- The outcome of `client.Get(fullURL)`: an error, or a response with its status code. -/
inductive GetResult where
  | err
  | resp (StatusCode : Int)
deriving DecidableEq

/-- Source lines 100-103 of `checkLink`: the URL handed to `client.Get`. -/
def fullURL (url : String) : String :=
  if !HasPrefix url "http://" && !HasPrefix url "https://" then "http://" ++ url else url

/-- `LinkChecker.checkLink`; `client` gives the outcome of `client.Get` for each URL. -/
def checkLink (client : String → GetResult) (url : String) : LinkStatus :=
  match client (fullURL url) with
  | GetResult.err => StatusUnavailable
  | GetResult.resp code =>
    if code ≥ 200 ∧ code < 400 then StatusAvailable else StatusUnavailable

end checker

/-! ## URL normalisation -/

namespace storage

theorem normalizeURL_of_head (u : String) (h : u.data.head? = some 'h') : normalizeURL u = u := by
  unfold normalizeURL
  rw [if_neg]
  rintro ⟨_, h2⟩
  exact h2 h

theorem normalizeURL_of_not_head (u : String) (h0 : u.length > 0) (h : u.data.head? ≠ some 'h') :
    normalizeURL u = "http://" ++ u := by
  unfold normalizeURL
  rw [if_pos ⟨h0, h⟩]

theorem normalizeURL_empty : normalizeURL "" = "" := by decide

theorem head_http_append (u : String) : ("http://" ++ u).data.head? = some 'h' := by
  rw [String.data_append]
  rfl

/-- C6: `normalizeURL` is idempotent on every string, the empty string included. -/
theorem normalizeURL_idempotent (u : String) :
    normalizeURL (normalizeURL u) = normalizeURL u := by
  by_cases h : u.length > 0 ∧ u.data.head? ≠ some 'h'
  · rw [normalizeURL_of_not_head u h.1 h.2]
    exact normalizeURL_of_head _ (head_http_append u)
  · have hu : normalizeURL u = u := by
      unfold normalizeURL
      rw [if_neg h]
    rw [hu, hu]

end storage

namespace checker

open storage

theorem head_of_HasPrefix_http (u : String) (h : HasPrefix u "http://" = true) :
    u.data.head? = some 'h' := by
  unfold HasPrefix at h
  rw [List.isPrefixOf_iff_prefix] at h
  obtain ⟨t, ht⟩ := h
  rw [← ht]
  rfl

theorem head_of_HasPrefix_https (u : String) (h : HasPrefix u "https://" = true) :
    u.data.head? = some 'h' := by
  unfold HasPrefix at h
  rw [List.isPrefixOf_iff_prefix] at h
  obtain ⟨t, ht⟩ := h
  rw [← ht]
  rfl

/-- C8 at the failing input: for "hello.com", which starts with `h` and carries no scheme,
the worker probes "http://hello.com" while `normalizeURL` leaves "hello.com" as it is; the
two also differ on the empty string. -/
theorem fullURL_ne_normalizeURL :
    fullURL "hello.com" = "http://hello.com" ∧ normalizeURL "hello.com" = "hello.com" ∧
      fullURL "hello.com" ≠ normalizeURL "hello.com" ∧
      fullURL "" = "http://" ∧ normalizeURL "" = "" ∧ fullURL "" ≠ normalizeURL "" := by
  decide

/-- The first-byte test of `normalizeURL` and the prefix test of `checkLink` give the same
URL on the strings that start with "http://" or "https://" and on the non-empty strings
that do not start with `h`. -/
theorem fullURL_eq_normalizeURL (u : String)
    (h : HasPrefix u "http://" = true ∨ HasPrefix u "https://" = true ∨
      (u.length > 0 ∧ u.data.head? ≠ some 'h')) :
    fullURL u = normalizeURL u := by
  rcases h with h | h | ⟨h0, h⟩
  · rw [normalizeURL_of_head u (head_of_HasPrefix_http u h)]
    simp [fullURL, h]
  · rw [normalizeURL_of_head u (head_of_HasPrefix_https u h)]
    simp [fullURL, h]
  · rw [normalizeURL_of_not_head u h0 h]
    have h1 : HasPrefix u "http://" = false := by
      cases hp : HasPrefix u "http://"
      · rfl
      · exact absurd (head_of_HasPrefix_http u hp) h
    have h2 : HasPrefix u "https://" = false := by
      cases hp : HasPrefix u "https://"
      · rfl
      · exact absurd (head_of_HasPrefix_https u hp) h
    simp [fullURL, h1, h2]

/-- C9: `checkLink` returns available exactly when the probe gave a response with a status
code in [200, 400); it returns unavailable exactly when the probe failed or the code is
below 200 or at least 400; it never returns pending. -/
theorem checkLink_classification (client : String → GetResult) (url : String) :
    (checkLink client url = StatusAvailable ↔
      ∃ c, client (fullURL url) = GetResult.resp c ∧ 200 ≤ c ∧ c < 400) ∧
    (checkLink client url = StatusUnavailable ↔
      (client (fullURL url) = GetResult.err ∨
        ∃ c, client (fullURL url) = GetResult.resp c ∧ (c < 200 ∨ 400 ≤ c))) ∧
    checkLink client url ≠ StatusPending := by
  have hau : StatusAvailable ≠ StatusUnavailable := by decide
  have hap : StatusAvailable ≠ StatusPending := by decide
  have hup : StatusUnavailable ≠ StatusPending := by decide
  unfold checkLink
  cases hc : client (fullURL url) with
  | err => simp [hau.symm, hup]
  | resp code =>
    by_cases hr : code ≥ 200 ∧ code < 400
    · simp only [hr, and_self, if_true]
      refine ⟨⟨fun _ => ⟨code, rfl, hr.1, hr.2⟩, fun _ => trivial⟩, ⟨fun h => absurd h hau, ?_⟩, hap⟩
      rintro (h | ⟨c, h, h2⟩)
      · cases h
      · cases h
        omega
    · simp only [hr, if_false]
      refine ⟨⟨fun h => absurd h hau.symm, ?_⟩, ⟨fun _ => Or.inr ⟨code, rfl, by omega⟩, fun _ => trivial⟩, hup⟩
      rintro ⟨c, h, h2⟩
      cases h
      exact absurd h2 hr

end checker

/-! ## The set map and the two loops -/

namespace storage

theorem mapGet_mapSet_same (m : SetMap) (id : Int) (v : LinkSet) :
    mapGet (mapSet m id v) id = some v := by
  induction m with
  | nil => simp [mapSet, mapGet]
  | cons p m ih =>
    obtain ⟨k, w⟩ := p
    by_cases hk : k = id
    · simp [mapSet, mapGet, hk]
    · simp [mapSet, mapGet, hk, ih]

theorem mapGet_mapSet_other (m : SetMap) (id id' : Int) (v : LinkSet) (h : id' ≠ id) :
    mapGet (mapSet m id v) id' = mapGet m id' := by
  induction m with
  | nil => simp [mapSet, mapGet, h.symm]
  | cons p m ih =>
    obtain ⟨k, w⟩ := p
    by_cases hk : k = id
    · subst hk
      simp [mapSet, mapGet, h.symm]
    · by_cases hk2 : k = id'
      · subst hk2
        simp [mapSet, mapGet, hk]
      · simp [mapSet, mapGet, hk, hk2, ih]

theorem take_succ_set_self {α : Type} (l : List α) (i : Nat) (x : α) (h : i < l.length) :
    (l.set i x).take (i + 1) = l.take i ++ [x] := by
  induction l generalizing i with
  | nil => simp at h
  | cons a l ih =>
    cases i with
    | zero => simp
    | succ i =>
      simp only [List.length_cons, Nat.add_lt_add_iff_right] at h
      simp [ih i h]

/-- The save loop started at index `i` keeps the first `i` slots and fills the following
ones with the normalised URLs, all pending, in the order of `urls`. -/
theorem saveLoop_eq (urls : List String) (i : Nat) (results : List LinkResult)
    (h : results.length = i + urls.length) :
    saveLoop urls i results =
      results.take i ++ urls.map (fun u => { URL := normalizeURL u, Status := StatusPending }) := by
  induction urls generalizing i results with
  | nil =>
    simp only [List.length_nil, Nat.add_zero] at h
    simp [saveLoop, ← h]
  | cons url rest ih =>
    simp only [List.length_cons] at h
    rw [saveLoop, ih (i + 1) _ (by rw [List.length_set]; omega),
      take_succ_set_self results i _ (by omega)]
    simp

theorem saveLoop_zero (urls : List String) :
    saveLoop urls 0 (List.replicate urls.length { URL := "", Status := "" }) =
      urls.map (fun u => { URL := normalizeURL u, Status := StatusPending }) := by
  rw [saveLoop_eq urls 0 _ (by simp)]
  simp

theorem SaveLinks_eq (s : fileStorage) (urls : List String) (tc tu : Time) :
    s.SaveLinks urls tc tu =
      ({ sets := mapSet s.sets s.nextID
            { ID := s.nextID,
              Links := urls.map (fun u => { URL := normalizeURL u, Status := StatusPending }),
              CreatedAt := tc, UpdatedAt := tu },
         nextID := s.nextID + 1, filePath := s.filePath }, s.nextID, none) := by
  simp only [fileStorage.SaveLinks, saveLoop_zero]

theorem updateLoop_none (links : List LinkResult) (n : String) (st : LinkStatus) :
    updateLoop links n st = none ↔ ∀ l ∈ links, l.URL ≠ n := by
  induction links with
  | nil => simp [updateLoop]
  | cons l rest ih =>
    by_cases hl : l.URL = n
    · simp [updateLoop, hl]
    · simp [updateLoop, hl, ih]

/-- A loop that returns has changed the first link whose URL is `n`, and only its status. -/
theorem updateLoop_some (links links' : List LinkResult) (n : String) (st : LinkStatus)
    (h : updateLoop links n st = some links') :
    ∃ k l, links[k]? = some l ∧ l.URL = n ∧
      (∀ j l', j < k → links[j]? = some l' → l'.URL ≠ n) ∧
      links' = links.set k { URL := l.URL, Status := st } := by
  induction links generalizing links' with
  | nil => simp [updateLoop] at h
  | cons a rest ih =>
    by_cases ha : a.URL = n
    · simp only [updateLoop, ha, if_true, Option.some.injEq] at h
      refine ⟨0, a, by simp, ha, fun j l' hj => absurd hj (Nat.not_lt_zero j), ?_⟩
      rw [← h, ha]
      rfl
    · simp only [updateLoop, ha, if_false, Option.map_eq_some'] at h
      obtain ⟨rest', hr, hl⟩ := h
      obtain ⟨k, l, hk, hu, hfirst, hset⟩ := ih rest' hr
      refine ⟨k + 1, l, by simpa using hk, hu, ?_, ?_⟩
      · intro j l' hj hjl
        cases j with
        | zero =>
          simp only [List.getElem?_cons_zero, Option.some.injEq] at hjl
          rw [← hjl]
          exact ha
        | succ j =>
          simp only [List.getElem?_cons_succ] at hjl
          exact hfirst j l' (by omega) hjl
      · rw [← hl, hset]
        rfl

theorem UpdateLinkStatus_of_absent (s : fileStorage) (id : Int) (url : String)
    (st : LinkStatus) (now : Time) (h : mapGet s.sets id = none) :
    s.UpdateLinkStatus id url st now = (s, some (Error.cannotUpdate id)) := by
  simp [fileStorage.UpdateLinkStatus, h]

theorem UpdateLinkStatus_of_no_link (s : fileStorage) (id : Int) (url : String)
    (st : LinkStatus) (now : Time) (set : LinkSet) (h : mapGet s.sets id = some set)
    (hl : updateLoop set.Links (normalizeURL url) st = none) :
    s.UpdateLinkStatus id url st now = (s, some (Error.urlNotFound url id)) := by
  simp [fileStorage.UpdateLinkStatus, h, hl]

theorem UpdateLinkStatus_of_link (s : fileStorage) (id : Int) (url : String)
    (st : LinkStatus) (now : Time) (set : LinkSet) (links : List LinkResult)
    (h : mapGet s.sets id = some set)
    (hl : updateLoop set.Links (normalizeURL url) st = some links) :
    s.UpdateLinkStatus id url st now =
      ({ s with sets := mapSet s.sets id { set with Links := links, UpdatedAt := now } }, none) := by
  simp [fileStorage.UpdateLinkStatus, h, hl]

end storage

/-! ## SaveLinks and UpdateLinkStatus -/

namespace storage

/-- A call that returns nil found the set and changed, in that set, the status of the
first link whose URL is the normalised `url`, and the time of the last update. -/
theorem UpdateLinkStatus_ok (s : fileStorage) (id : Int) (url : String) (st : LinkStatus)
    (now : Time) (h : (s.UpdateLinkStatus id url st now).2 = none) :
    ∃ set k l, mapGet s.sets id = some set ∧ set.Links[k]? = some l ∧
      l.URL = normalizeURL url ∧
      (∀ j l', j < k → set.Links[j]? = some l' → l'.URL ≠ normalizeURL url) ∧
      (s.UpdateLinkStatus id url st now).1 =
        { s with
          sets := mapSet s.sets id
                    { set with Links := set.Links.set k { URL := l.URL, Status := st },
                               UpdatedAt := now } } := by
  cases hg : mapGet s.sets id with
  | none =>
    rw [UpdateLinkStatus_of_absent s id url st now hg] at h
    simp at h
  | some set =>
    cases hl : updateLoop set.Links (normalizeURL url) st with
    | none =>
      rw [UpdateLinkStatus_of_no_link s id url st now set hg hl] at h
      simp at h
    | some links =>
      obtain ⟨k, l, hk, hu, hfirst, hset⟩ := updateLoop_some _ _ _ _ hl
      refine ⟨set, k, l, rfl, hk, hu, hfirst, ?_⟩
      rw [UpdateLinkStatus_of_link s id url st now set links hg hl, hset]

/-- A call on a stored set that has a link with the normalised URL returns nil. -/
theorem UpdateLinkStatus_returns_nil (s : fileStorage) (id : Int) (url : String)
    (st : LinkStatus) (now : Time) (set : LinkSet) (l : LinkResult)
    (hg : mapGet s.sets id = some set) (hl : l ∈ set.Links) (hu : l.URL = normalizeURL url) :
    (s.UpdateLinkStatus id url st now).2 = none := by
  cases hloop : updateLoop set.Links (normalizeURL url) st with
  | none => exact absurd hu ((updateLoop_none _ _ _).1 hloop l hl)
  | some links => rw [UpdateLinkStatus_of_link s id url st now set links hg hloop]

/-- C3: `UpdateLinkStatus` returns the set-not-found error exactly when no set has the id,
the link-not-found error exactly when the set is stored and none of its links has the
normalised URL, and nil otherwise; a call that returns an error leaves the store as it
was. On an empty store, `UpdateLinkStatus(99, "x.com", available)` returns the
set-not-found error. -/
theorem UpdateLinkStatus_errors (s : fileStorage) (id : Int) (url : String)
    (st : LinkStatus) (now : Time) :
    ((s.UpdateLinkStatus id url st now).2 = some (Error.cannotUpdate id) ↔
      s.GetLinkSet id = none) ∧
    ((s.UpdateLinkStatus id url st now).2 = some (Error.urlNotFound url id) ↔
      ∃ set, s.GetLinkSet id = some set ∧ ∀ l ∈ set.Links, l.URL ≠ normalizeURL url) ∧
    ((s.UpdateLinkStatus id url st now).2 = none ↔
      ∃ set, s.GetLinkSet id = some set ∧ ∃ l ∈ set.Links, l.URL = normalizeURL url) ∧
    ((s.UpdateLinkStatus id url st now).2 = none ∨ (s.UpdateLinkStatus id url st now).1 = s) ∧
    ((NewFileStorage s.filePath).UpdateLinkStatus 99 "x.com" StatusAvailable now).2 =
      some (Error.cannotUpdate 99) := by
  refine ⟨?_, ?_, ?_, ?_, rfl⟩
  all_goals try unfold fileStorage.GetLinkSet
  all_goals cases hg : mapGet s.sets id with
    | none => simp [UpdateLinkStatus_of_absent s id url st now hg]
    | some set =>
      cases hl : updateLoop set.Links (normalizeURL url) st with
      | none =>
        have hno := (updateLoop_none _ _ _).1 hl
        simp only [UpdateLinkStatus_of_no_link s id url st now set hg hl]
        simp
        try exact hno
        try exact fun l hl hu => hno l hl hu
      | some links =>
        have hsome : ∃ l ∈ set.Links, l.URL = normalizeURL url := by
          by_contra hcon
          push_neg at hcon
          rw [(updateLoop_none _ _ st).2 hcon] at hl
          cases hl
        simp only [UpdateLinkStatus_of_link s id url st now set links hg hl]
        simp
        try exact hsome

/-- The postcondition of `SaveLinks` with the counter incremented without wrap-around. -/
theorem SaveLinks_post (s : fileStorage) (urls : List String) (tc tu : Time) :
    (s.SaveLinks urls tc tu).2.1 = s.nextID ∧
    (s.SaveLinks urls tc tu).2.2 = none ∧
    (s.SaveLinks urls tc tu).1.nextID = s.nextID + 1 ∧
    (∃ set, (s.SaveLinks urls tc tu).1.GetLinkSet s.nextID = some set ∧
      set.ID = s.nextID ∧ set.Links.length = urls.length ∧
      ∀ i : Nat, set.Links[i]? =
        (urls[i]?).map (fun u => (LinkResult.mk (normalizeURL u) StatusPending))) ∧
    (∀ id, id ≠ s.nextID → (s.SaveLinks urls tc tu).1.GetLinkSet id = s.GetLinkSet id) ∧
    ((NewFileStorage s.filePath).SaveLinks ["example.com", "https://good.test"] tc tu).2.1 = 1 ∧
    ((NewFileStorage s.filePath).SaveLinks ["example.com", "https://good.test"] tc tu).1.GetLinkSet 1 =
      some { ID := 1,
             Links := [{ URL := "http://example.com", Status := StatusPending },
                       { URL := "https://good.test", Status := StatusPending }],
             CreatedAt := tc, UpdatedAt := tu } := by
  refine ⟨?_, ?_, ?_, ?_, ?_, rfl, ?_⟩
  · rw [SaveLinks_eq]
  · rw [SaveLinks_eq]
  · rw [SaveLinks_eq]
  · rw [SaveLinks_eq]
    refine ⟨_, mapGet_mapSet_same _ _ _, rfl, by simp, fun i => by simp⟩
  · intro id hid
    rw [SaveLinks_eq]
    exact mapGet_mapSet_other _ _ _ _ hid
  · rw [SaveLinks_eq]
    simp only [fileStorage.GetLinkSet, NewFileStorage, mapSet, mapGet, if_true, List.map]
    have h1 : normalizeURL "example.com" = "http://example.com" := by decide
    have h2 : normalizeURL "https://good.test" = "https://good.test" := by decide
    rw [h1, h2]

theorem wrapInt_of_int (n : Int) (hlo : minInt ≤ n) (hhi : n ≤ maxInt) : wrapInt n = n := by
  unfold wrapInt
  unfold minInt at hlo ⊢
  unfold maxInt at hhi
  omega

/-- Below the largest `int` the increment does not wrap, and `SaveLinks64` is `SaveLinks`. -/
theorem SaveLinks64_eq_SaveLinks (s : fileStorage) (urls : List String) (tc tu : Time)
    (hlo : minInt ≤ s.nextID) (hhi : s.nextID < maxInt) :
    s.SaveLinks64 urls tc tu = s.SaveLinks urls tc tu := by
  have h : wrapInt (s.nextID + 1) = s.nextID + 1 :=
    wrapInt_of_int _ (by unfold minInt at hlo ⊢; omega) (by unfold maxInt at hhi ⊢; omega)
  simp only [fileStorage.SaveLinks64, fileStorage.SaveLinks, h]

/-- C4 as stated fails: in a store whose counter `nextID` is the largest `int`, `2^63 - 1`,
`SaveLinks` returns that id with a nil error and stores the set under it, and the counter
afterwards is `-2^63`, not the id plus one. -/
theorem SaveLinks64_counter_wraps :
    (fileStorage.SaveLinks64 { sets := [], nextID := 9223372036854775807, filePath := "links.json" }
      ["example.com"] 0 0).2.1 = 9223372036854775807 ∧
    (fileStorage.SaveLinks64 { sets := [], nextID := 9223372036854775807, filePath := "links.json" }
      ["example.com"] 0 0).2.2 = none ∧
    (fileStorage.SaveLinks64 { sets := [], nextID := 9223372036854775807, filePath := "links.json" }
      ["example.com"] 0 0).1.nextID = -9223372036854775808 ∧
    (fileStorage.SaveLinks64 { sets := [], nextID := 9223372036854775807, filePath := "links.json" }
      ["example.com"] 0 0).1.nextID ≠ 9223372036854775807 + 1 := by
  decide

/-- C4, amended: in a store whose counter `nextID` is an `int` below the largest one,
`SaveLinks(urls)` returns the counter as the id, with a nil error; after it the counter is
the id plus one, the set stored under the id has that id and one link per URL, the i-th
being the normalised i-th URL with status pending, and every other id has the set it had.
On a fresh store, saving "example.com" and "https://good.test" returns 1 and both links
are pending. -/
theorem SaveLinks64_post (s : fileStorage) (urls : List String) (tc tu : Time)
    (hlo : minInt ≤ s.nextID) (hhi : s.nextID < maxInt) :
    (s.SaveLinks64 urls tc tu).2.1 = s.nextID ∧
    (s.SaveLinks64 urls tc tu).2.2 = none ∧
    (s.SaveLinks64 urls tc tu).1.nextID = s.nextID + 1 ∧
    (∃ set, (s.SaveLinks64 urls tc tu).1.GetLinkSet s.nextID = some set ∧
      set.ID = s.nextID ∧ set.Links.length = urls.length ∧
      ∀ i : Nat, set.Links[i]? =
        (urls[i]?).map (fun u => (LinkResult.mk (normalizeURL u) StatusPending))) ∧
    (∀ id, id ≠ s.nextID → (s.SaveLinks64 urls tc tu).1.GetLinkSet id = s.GetLinkSet id) ∧
    ((NewFileStorage s.filePath).SaveLinks64 ["example.com", "https://good.test"] tc tu).2.1 = 1 ∧
    ((NewFileStorage s.filePath).SaveLinks64 ["example.com", "https://good.test"] tc tu).1.GetLinkSet 1 =
      some { ID := 1,
             Links := [{ URL := "http://example.com", Status := StatusPending },
                       { URL := "https://good.test", Status := StatusPending }],
             CreatedAt := tc, UpdatedAt := tu } := by
  have hfresh : (NewFileStorage s.filePath).SaveLinks64 ["example.com", "https://good.test"] tc tu
      = (NewFileStorage s.filePath).SaveLinks ["example.com", "https://good.test"] tc tu :=
    SaveLinks64_eq_SaveLinks _ _ _ _ (show minInt ≤ 1 by decide) (show (1 : Int) < maxInt by decide)
  rw [SaveLinks64_eq_SaveLinks s urls tc tu hlo hhi, hfresh]
  exact SaveLinks_post s urls tc tu

theorem SaveLinks64_post_witness :
    (minInt ≤ 1 ∧ (1 : Int) < maxInt) ∧
    ((NewFileStorage "links.json").SaveLinks64 ["example.com", "https://good.test"] 0 0).2.1 = 1 ∧
    ((NewFileStorage "links.json").SaveLinks64 ["example.com", "https://good.test"] 0 0).2.2
      = none ∧
    ((NewFileStorage "links.json").SaveLinks64 ["example.com", "https://good.test"] 0 0).1.nextID
      = 2 ∧
    ((NewFileStorage "links.json").SaveLinks64 ["example.com", "https://good.test"] 0 0).1.GetLinkSet 1 =
      some { ID := 1,
             Links := [{ URL := "http://example.com", Status := StatusPending },
                       { URL := "https://good.test", Status := StatusPending }],
             CreatedAt := 0, UpdatedAt := 0 } :=
  ⟨⟨by decide, by decide⟩,
   (SaveLinks64_post (NewFileStorage "links.json") ["example.com", "https://good.test"] 0 0
     (by decide) (by decide)).1,
   (SaveLinks64_post (NewFileStorage "links.json") ["example.com", "https://good.test"] 0 0
     (by decide) (by decide)).2.1,
   (SaveLinks64_post (NewFileStorage "links.json") ["example.com", "https://good.test"] 0 0
     (by decide) (by decide)).2.2.1,
   (SaveLinks64_post (NewFileStorage "links.json") ["example.com", "https://good.test"] 0 0
     (by decide) (by decide)).2.2.2.2.2.2⟩

end storage

/-! ## Normalisation on save and on status update -/

namespace storage

/-- After a call that returns nil, the set has a link with the normalised URL and the
status that was passed. -/
theorem UpdateLinkStatus_sets_link (s : fileStorage) (id : Int) (url : String)
    (st : LinkStatus) (now : Time) (h : (s.UpdateLinkStatus id url st now).2 = none) :
    ∃ set, (s.UpdateLinkStatus id url st now).1.GetLinkSet id = some set ∧
      { URL := normalizeURL url, Status := st } ∈ set.Links := by
  obtain ⟨set, k, l, hg, hk, hu, _, hres⟩ := UpdateLinkStatus_ok s id url st now h
  rw [hres]
  refine ⟨_, mapGet_mapSet_same _ _ _, ?_⟩
  have hlt : k < set.Links.length := by
    by_contra hcon
    rw [List.getElem?_eq_none (by omega)] at hk
    cases hk
  rw [hu]
  exact List.mem_iff_getElem.2 ⟨k, by simpa using hlt, by simp⟩

theorem SaveLinks_stores (s : fileStorage) (urls : List String) (tc tu : Time) :
    mapGet (s.SaveLinks urls tc tu).1.sets (s.SaveLinks urls tc tu).2.1 =
      some { ID := s.nextID,
             Links := urls.map (fun u => { URL := normalizeURL u, Status := StatusPending }),
             CreatedAt := tc, UpdatedAt := tu } := by
  rw [SaveLinks_eq]
  exact mapGet_mapSet_same _ _ _

/-- C5: after `SaveLinks(urls)` returned `id`, a status update for `id` with the raw i-th
URL and one with the normalised i-th URL both return nil, and after either the set has a
link whose URL is the normalised i-th URL and whose status is the one passed. -/
theorem save_then_update (s : fileStorage) (urls : List String) (tc tu : Time) (i : Nat)
    (hi : i < urls.length) (st : LinkStatus) (now : Time) :
    (((s.SaveLinks urls tc tu).1.UpdateLinkStatus (s.SaveLinks urls tc tu).2.1
        urls[i] st now).2 = none ∧
      ∃ set, ((s.SaveLinks urls tc tu).1.UpdateLinkStatus (s.SaveLinks urls tc tu).2.1
          urls[i] st now).1.GetLinkSet (s.SaveLinks urls tc tu).2.1 = some set ∧
        { URL := normalizeURL urls[i], Status := st } ∈ set.Links) ∧
    (((s.SaveLinks urls tc tu).1.UpdateLinkStatus (s.SaveLinks urls tc tu).2.1
        (normalizeURL urls[i]) st now).2 = none ∧
      ∃ set, ((s.SaveLinks urls tc tu).1.UpdateLinkStatus (s.SaveLinks urls tc tu).2.1
          (normalizeURL urls[i]) st now).1.GetLinkSet (s.SaveLinks urls tc tu).2.1 = some set ∧
        { URL := normalizeURL urls[i], Status := st } ∈ set.Links) := by
  have hmem : ({ URL := normalizeURL urls[i], Status := StatusPending } : LinkResult) ∈
      urls.map (fun u => ({ URL := normalizeURL u, Status := StatusPending } : LinkResult)) :=
    List.mem_map.2 ⟨urls[i], List.getElem_mem _, rfl⟩
  have h1 := UpdateLinkStatus_returns_nil (s.SaveLinks urls tc tu).1 (s.SaveLinks urls tc tu).2.1
    urls[i] st now _ _ (SaveLinks_stores s urls tc tu) hmem rfl
  have h2 := UpdateLinkStatus_returns_nil (s.SaveLinks urls tc tu).1 (s.SaveLinks urls tc tu).2.1
    (normalizeURL urls[i]) st now _ _ (SaveLinks_stores s urls tc tu) hmem
    (normalizeURL_idempotent urls[i]).symm
  refine ⟨⟨h1, UpdateLinkStatus_sets_link _ _ _ _ _ h1⟩, h2, ?_⟩
  have h3 := UpdateLinkStatus_sets_link _ _ _ _ _ h2
  rw [normalizeURL_idempotent] at h3
  exact h3

theorem save_then_update_witness :
    ((((NewFileStorage "links.json").SaveLinks ["example.com", "hello.com"] 0 0).1.UpdateLinkStatus
        1 "example.com" StatusAvailable 1).2 = none ∧
      ∃ set, (((NewFileStorage "links.json").SaveLinks ["example.com", "hello.com"] 0 0).1.UpdateLinkStatus
          1 "example.com" StatusAvailable 1).1.GetLinkSet 1 = some set ∧
        { URL := "http://example.com", Status := StatusAvailable } ∈ set.Links) ∧
    ((((NewFileStorage "links.json").SaveLinks ["example.com", "hello.com"] 0 0).1.UpdateLinkStatus
        1 "http://example.com" StatusAvailable 1).2 = none ∧
      ∃ set, (((NewFileStorage "links.json").SaveLinks ["example.com", "hello.com"] 0 0).1.UpdateLinkStatus
          1 "http://example.com" StatusAvailable 1).1.GetLinkSet 1 = some set ∧
        { URL := "http://example.com", Status := StatusAvailable } ∈ set.Links) :=
  save_then_update (NewFileStorage "links.json") ["example.com", "hello.com"] 0 0 0
    (by decide) StatusAvailable 1

end storage

/-! ## The frame of a status update -/

namespace storage

theorem getElem?_lt_length {α : Type} (l : List α) (k : Nat) (x : α) (h : l[k]? = some x) :
    k < l.length := by
  by_contra hcon
  rw [List.getElem?_eq_none (by omega)] at h
  cases h

/-- A set that holds the URL `n` at the indices `i < j`, pending at `j`, still does so
after any `UpdateLinkStatus` call: the call changes the first link with its URL, and the
link at `j` is never the first one with the URL `n`. -/
theorem twin_update (s : fileStorage) (id : Int) (i j : Nat) (n : String) (hij : i < j)
    (c : UpdateCall)
    (h : ∃ set li, mapGet s.sets id = some set ∧ set.Links[i]? = some li ∧ li.URL = n ∧
      set.Links[j]? = some { URL := n, Status := StatusPending }) :
    ∃ set li, mapGet (s.UpdateLinkStatus c.id c.url c.status c.now).1.sets id = some set ∧
      set.Links[i]? = some li ∧ li.URL = n ∧
      set.Links[j]? = some { URL := n, Status := StatusPending } := by
  cases hret : (s.UpdateLinkStatus c.id c.url c.status c.now).2 with
  | some e =>
    cases hg : mapGet s.sets c.id with
    | none =>
      rw [UpdateLinkStatus_of_absent s c.id c.url c.status c.now hg]
      exact h
    | some set =>
      cases hl : updateLoop set.Links (normalizeURL c.url) c.status with
      | none =>
        rw [UpdateLinkStatus_of_no_link s c.id c.url c.status c.now set hg hl]
        exact h
      | some links =>
        rw [UpdateLinkStatus_of_link s c.id c.url c.status c.now set links hg hl] at hret
        cases hret
  | none =>
    obtain ⟨set, k, l, hg, hk, hu, hfirst, hres⟩ :=
      UpdateLinkStatus_ok s c.id c.url c.status c.now hret
    rw [hres]
    obtain ⟨set0, li, hg0, hli, hurl, hlj⟩ := h
    by_cases hid : id = c.id
    · subst hid
      rw [hg] at hg0
      cases hg0
      have hkj : k ≠ j := by
        intro hkj
        subst hkj
        rw [hk] at hlj
        cases hlj
        exact hfirst i li hij hli (hurl.trans hu)
      by_cases hki : k = i
      · subst hki
        rw [hk] at hli
        cases hli
        refine ⟨_, { URL := l.URL, Status := c.status }, mapGet_mapSet_same _ _ _, ?_, hurl, ?_⟩
        · simp [List.getElem?_set, getElem?_lt_length _ _ _ hk]
        · simp [List.getElem?_set, hkj, hlj]
      · refine ⟨_, li, mapGet_mapSet_same _ _ _, ?_, hurl, ?_⟩
        · simp [List.getElem?_set, hki, hli]
        · simp [List.getElem?_set, hkj, hlj]
    · refine ⟨set0, li, ?_, hli, hurl, hlj⟩
      show mapGet (mapSet s.sets c.id _) id = some set0
      rw [mapGet_mapSet_other _ _ _ _ hid]
      exact hg0

theorem twin_runUpdates (id : Int) (i j : Nat) (n : String) (hij : i < j)
    (calls : List UpdateCall) (s : fileStorage)
    (h : ∃ set li, mapGet s.sets id = some set ∧ set.Links[i]? = some li ∧ li.URL = n ∧
      set.Links[j]? = some { URL := n, Status := StatusPending }) :
    ∃ set li, mapGet (runUpdates s calls).sets id = some set ∧ set.Links[i]? = some li ∧
      li.URL = n ∧ set.Links[j]? = some { URL := n, Status := StatusPending } := by
  induction calls generalizing s with
  | nil => exact h
  | cons c rest ih => exact ih _ (twin_update s id i j n hij c h)

/-- C10: a status update that returns nil gives the passed status to the link at the
smallest index whose URL is the normalised `url`; every other link of the set, the URLs
and the order of its links, its id, every other set and the counter `nextID` are as
before. So in a set saved from a list that holds one URL at two indices, the link at the
later index is pending after any sequence of status updates. -/
theorem UpdateLinkStatus_frame :
    (∀ (s : fileStorage) (id : Int) (url : String) (st : LinkStatus) (now : Time),
      (s.UpdateLinkStatus id url st now).2 = none →
      ∃ set set' k l, s.GetLinkSet id = some set ∧
        (s.UpdateLinkStatus id url st now).1.GetLinkSet id = some set' ∧
        set.Links[k]? = some l ∧ l.URL = normalizeURL url ∧
        (∀ j l', j < k → set.Links[j]? = some l' → l'.URL ≠ normalizeURL url) ∧
        set'.Links[k]? = some { URL := normalizeURL url, Status := st } ∧
        (∀ j : Nat, j ≠ k → set'.Links[j]? = set.Links[j]?) ∧
        set'.Links.map (fun x => x.URL) = set.Links.map (fun x => x.URL) ∧
        set'.ID = set.ID ∧
        (∀ id', id' ≠ id →
          (s.UpdateLinkStatus id url st now).1.GetLinkSet id' = s.GetLinkSet id') ∧
        (s.UpdateLinkStatus id url st now).1.nextID = s.nextID) ∧
    (∀ (s : fileStorage) (urls : List String) (tc tu : Time) (i j : Nat) (u : String)
        (calls : List UpdateCall),
      i < j → urls[i]? = some u → urls[j]? = some u →
      linkAt (runUpdates (s.SaveLinks urls tc tu).1 calls) (s.SaveLinks urls tc tu).2.1 j =
        some { URL := normalizeURL u, Status := StatusPending }) := by
  constructor
  · intro s id url st now hret
    obtain ⟨set, k, l, hg, hk, hu, hfirst, hres⟩ := UpdateLinkStatus_ok s id url st now hret
    rw [hres]
    have hlt := getElem?_lt_length _ _ _ hk
    refine ⟨set, _, k, l, hg, mapGet_mapSet_same _ _ _, hk, hu, hfirst, ?_, ?_, ?_, rfl, ?_, rfl⟩
    · simp [List.getElem?_set, hlt, hu]
    · intro j hj
      simp [List.getElem?_set, Ne.symm hj]
    · apply List.ext_getElem?
      intro n
      by_cases hn : k = n
      · subst hn
        obtain ⟨_, hkk⟩ := List.getElem?_eq_some.1 hk
        simp [List.getElem?_set, hlt, hkk]
      · simp [List.getElem?_set, hn]
    · intro id' hid
      exact mapGet_mapSet_other _ _ _ _ hid
  · intro s urls tc tu i j u calls hij hi hj
    have hstart : ∃ set li, mapGet (s.SaveLinks urls tc tu).1.sets (s.SaveLinks urls tc tu).2.1
        = some set ∧ set.Links[i]? = some li ∧ li.URL = normalizeURL u ∧
        set.Links[j]? = some { URL := normalizeURL u, Status := StatusPending } := by
      refine ⟨_, { URL := normalizeURL u, Status := StatusPending },
        SaveLinks_stores s urls tc tu, ?_, rfl, ?_⟩
      · simp [hi]
      · simp [hj]
    obtain ⟨set, li, hg, _, _, hlj⟩ :=
      twin_runUpdates _ i j (normalizeURL u) hij calls _ hstart
    simp [linkAt, fileStorage.GetLinkSet, hg, hlj]

theorem UpdateLinkStatus_frame_witness :
    (((NewFileStorage "links.json").SaveLinks ["a.com", "a.com"] 0 0).1.UpdateLinkStatus
        1 "a.com" StatusAvailable 1).2 = none ∧
    (∃ set set' k l,
      ((NewFileStorage "links.json").SaveLinks ["a.com", "a.com"] 0 0).1.GetLinkSet 1 = some set ∧
      (((NewFileStorage "links.json").SaveLinks ["a.com", "a.com"] 0 0).1.UpdateLinkStatus
        1 "a.com" StatusAvailable 1).1.GetLinkSet 1 = some set' ∧
      set.Links[k]? = some l ∧ l.URL = normalizeURL "a.com" ∧
      (∀ j l', j < k → set.Links[j]? = some l' → l'.URL ≠ normalizeURL "a.com") ∧
      set'.Links[k]? = some { URL := normalizeURL "a.com", Status := StatusAvailable } ∧
      (∀ j : Nat, j ≠ k → set'.Links[j]? = set.Links[j]?) ∧
      set'.Links.map (fun x => x.URL) = set.Links.map (fun x => x.URL) ∧
      set'.ID = set.ID ∧
      (∀ id', id' ≠ 1 →
        (((NewFileStorage "links.json").SaveLinks ["a.com", "a.com"] 0 0).1.UpdateLinkStatus
          1 "a.com" StatusAvailable 1).1.GetLinkSet id' =
        ((NewFileStorage "links.json").SaveLinks ["a.com", "a.com"] 0 0).1.GetLinkSet id') ∧
      (((NewFileStorage "links.json").SaveLinks ["a.com", "a.com"] 0 0).1.UpdateLinkStatus
        1 "a.com" StatusAvailable 1).1.nextID =
        ((NewFileStorage "links.json").SaveLinks ["a.com", "a.com"] 0 0).1.nextID) ∧
    linkAt (runUpdates ((NewFileStorage "links.json").SaveLinks ["a.com", "a.com"] 0 0).1
        [{ id := 1, url := "a.com", status := StatusAvailable, now := 1 },
         { id := 1, url := "http://a.com", status := StatusUnavailable, now := 2 }]) 1 1 =
      some { URL := "http://a.com", Status := StatusPending } :=
  ⟨by decide,
   UpdateLinkStatus_frame.1 ((NewFileStorage "links.json").SaveLinks ["a.com", "a.com"] 0 0).1
     1 "a.com" StatusAvailable 1 (by decide),
   UpdateLinkStatus_frame.2 (NewFileStorage "links.json") ["a.com", "a.com"] 0 0 0 1 "a.com"
     [{ id := 1, url := "a.com", status := StatusAvailable, now := 1 },
      { id := 1, url := "http://a.com", status := StatusUnavailable, now := 2 }]
     (by decide) rfl rfl⟩

end storage

/-! ## Status monotonicity -/

namespace storage

theorem mapGet_step_update (s : fileStorage) (id : Int) (url : String) (st : LinkStatus)
    (now : Time) :
    (s.UpdateLinkStatus id url st now).1 = s ∨
    ∃ set k l, mapGet s.sets id = some set ∧ set.Links[k]? = some l ∧
      (s.UpdateLinkStatus id url st now).1 =
        { s with
          sets := mapSet s.sets id
                    { set with Links := set.Links.set k { URL := l.URL, Status := st },
                               UpdatedAt := now } } := by
  cases hret : (s.UpdateLinkStatus id url st now).2 with
  | none =>
    obtain ⟨set, k, l, hg, hk, _, _, hres⟩ := UpdateLinkStatus_ok s id url st now hret
    exact Or.inr ⟨set, k, l, hg, hk, hres⟩
  | some e =>
    left
    cases hg : mapGet s.sets id with
    | none => rw [UpdateLinkStatus_of_absent s id url st now hg]
    | some set =>
      cases hl : updateLoop set.Links (normalizeURL url) st with
      | none => rw [UpdateLinkStatus_of_no_link s id url st now set hg hl]
      | some links =>
        rw [UpdateLinkStatus_of_link s id url st now set links hg hl] at hret
        cases hret

/-- Every id stored in a reachable store is below the counter `nextID`. -/
theorem run_ids_below (ops : List Op) (s : fileStorage)
    (h : ∀ id set, mapGet s.sets id = some set → id < s.nextID) :
    ∀ id set, mapGet (run s ops).sets id = some set → id < (run s ops).nextID := by
  induction ops generalizing s with
  | nil => exact h
  | cons op rest ih =>
    apply ih
    intro id set hg
    cases op with
    | save urls tc tu =>
      simp only [step, SaveLinks_eq] at hg ⊢
      by_cases hid : id = s.nextID
      · omega
      · rw [mapGet_mapSet_other _ _ _ _ hid] at hg
        have := h id set hg
        omega
    | update id' url st now =>
      simp only [step] at hg ⊢
      rcases mapGet_step_update s id' url st now with heq | ⟨set0, k, l, hg0, _, heq⟩
      · rw [heq] at hg ⊢
        exact h id set hg
      · rw [heq] at hg ⊢
        by_cases hid : id = id'
        · subst hid
          exact h id set0 hg0
        · simp only at hg
          rw [mapGet_mapSet_other _ _ _ _ hid] at hg
          exact h id set hg

theorem Reachable_ids_below (s : fileStorage) (hs : Reachable s) (id : Int) (set : LinkSet)
    (hg : mapGet s.sets id = some set) : id < s.nextID := by
  obtain ⟨path, ops, rfl⟩ := hs
  exact run_ids_below ops (NewFileStorage path) (by simp [NewFileStorage, mapGet]) id set hg

/-- C7 as stated fails: after a save and a status update to available, the call
`UpdateLinkStatus(1, "a.com", pending)` returns nil and the link is pending again. -/
theorem UpdateLinkStatus_back_to_pending :
    Reachable (run (NewFileStorage "links.json")
      [Op.save ["a.com"] 0 0, Op.update 1 "a.com" StatusAvailable 1]) ∧
    linkAt (run (NewFileStorage "links.json")
      [Op.save ["a.com"] 0 0, Op.update 1 "a.com" StatusAvailable 1]) 1 0 =
      some { URL := "http://a.com", Status := StatusAvailable } ∧
    ((run (NewFileStorage "links.json")
      [Op.save ["a.com"] 0 0, Op.update 1 "a.com" StatusAvailable 1]).UpdateLinkStatus
        1 "a.com" StatusPending 2).2 = none ∧
    linkAt (step (run (NewFileStorage "links.json")
      [Op.save ["a.com"] 0 0, Op.update 1 "a.com" StatusAvailable 1])
        (Op.update 1 "a.com" StatusPending 2)) 1 0 =
      some { URL := "http://a.com", Status := StatusPending } :=
  ⟨⟨"links.json", _, rfl⟩, by decide, by decide, by decide⟩

/-- C7, amended: in a store reached from a fresh one, a link that is available or
unavailable is not pending after `SaveLinks` with any URL list, nor after
`UpdateLinkStatus` with any id, any URL and any status other than pending; it is still the
link at its index of its set, with its URL. -/
theorem status_monotone (s : fileStorage) (hs : Reachable s) (op : Op)
    (hop : ∀ id url now, op ≠ Op.update id url StatusPending now)
    (id : Int) (i : Nat) (l : LinkResult) (hl : linkAt s id i = some l)
    (hst : l.Status = StatusAvailable ∨ l.Status = StatusUnavailable) :
    ∃ l', linkAt (step s op) id i = some l' ∧ l'.URL = l.URL ∧ l'.Status ≠ StatusPending := by
  have hnp : l.Status ≠ StatusPending := by
    rcases hst with h | h <;> rw [h] <;> decide
  unfold linkAt fileStorage.GetLinkSet at hl ⊢
  cases hg : mapGet s.sets id with
  | none => simp [hg] at hl
  | some set =>
    simp only [hg, Option.some_bind] at hl
    cases op with
    | save urls tc tu =>
      have hid : id ≠ s.nextID := by
        have := Reachable_ids_below s hs id set hg
        omega
      refine ⟨l, ?_, rfl, hnp⟩
      simp only [step, SaveLinks_eq]
      rw [mapGet_mapSet_other _ _ _ _ hid, hg]
      exact hl
    | update id' url st now =>
      have hstp : st ≠ StatusPending := by
        intro hcon
        exact hop id' url now (by rw [hcon])
      simp only [step]
      rcases mapGet_step_update s id' url st now with heq | ⟨set0, k, l0, hg0, hk, heq⟩
      · rw [heq, hg]
        exact ⟨l, hl, rfl, hnp⟩
      · rw [heq]
        by_cases hid : id = id'
        · subst hid
          rw [hg] at hg0
          cases hg0
          simp only [mapGet_mapSet_same, Option.some_bind]
          by_cases hki : k = i
          · subst hki
            rw [hk] at hl
            cases hl
            exact ⟨{ URL := l.URL, Status := st },
              by simp [List.getElem?_set, getElem?_lt_length _ _ _ hk], rfl, hstp⟩
          · exact ⟨l, by simp [List.getElem?_set, hki, hl], rfl, hnp⟩
        · simp only
          rw [mapGet_mapSet_other _ _ _ _ hid, hg]
          exact ⟨l, hl, rfl, hnp⟩

theorem status_monotone_witness :
    Reachable (run (NewFileStorage "links.json")
      [Op.save ["a.com"] 0 0, Op.update 1 "a.com" StatusAvailable 1]) ∧
    linkAt (run (NewFileStorage "links.json")
      [Op.save ["a.com"] 0 0, Op.update 1 "a.com" StatusAvailable 1]) 1 0 =
      some { URL := "http://a.com", Status := StatusAvailable } ∧
    ∃ l', linkAt (step (run (NewFileStorage "links.json")
        [Op.save ["a.com"] 0 0, Op.update 1 "a.com" StatusAvailable 1])
        (Op.update 1 "a.com" StatusUnavailable 2)) 1 0 = some l' ∧
      l'.URL = "http://a.com" ∧ l'.Status ≠ StatusPending :=
  ⟨⟨"links.json", _, rfl⟩, by decide,
   status_monotone _ ⟨"links.json", [Op.save ["a.com"] 0 0, Op.update 1 "a.com" StatusAvailable 1], rfl⟩
     (Op.update 1 "a.com" StatusUnavailable 2)
     (fun _ _ _ h => absurd (Op.update.inj h).2.2.1 (by decide)) 1 0
     { URL := "http://a.com", Status := StatusAvailable } (by decide) (Or.inl rfl)⟩

end storage

/-! ## Backup and Restore -/

namespace storage

/-- The key "sets" written by `Backup` selects the field `Sets` of `Restore`; the key
"next_id" selects neither `Sets` nor `NextID`, since "next_id" and "NextID" differ by more
than case. -/
theorem snapshot_keys :
    matchesField "sets" "Sets" = true ∧ matchesField "next_id" "Sets" = false ∧
      matchesField "next_id" "NextID" = false := by
  decide

/-- What `Restore` decodes from the file that `Backup` wrote: the sets, and 0 for
`NextID`. -/
theorem decode_backup (s : fileStorage) :
    decodeMembers [("sets", JSONValue.setsObject s.sets), ("next_id", JSONValue.number s.nextID)]
      { Sets := none, NextID := 0 } = some { Sets := some s.sets, NextID := 0 } := by
  have h1 : matchesField "sets" "Sets" = true := by decide
  have h2 : matchesField "next_id" "Sets" = false := by decide
  have h3 : matchesField "next_id" "NextID" = false := by decide
  simp [decodeMembers, decodeMember, decodeSets, h1, h2, h3]

/-- A restart keeps the sets and puts the counter `nextID` back to 1, whatever it was. -/
theorem restart_eq (s : fileStorage) :
    restart s = { sets := s.sets, nextID := 1, filePath := s.filePath } := by
  simp [restart, fileStorage.Backup, fileStorage.Restore, decode_backup, NewFileStorage]

/-- No operation lowers the counter `nextID`. -/
theorem run_nextID_le (ops : List Op) (s : fileStorage) : s.nextID ≤ (run s ops).nextID := by
  induction ops generalizing s with
  | nil => exact le_refl _
  | cons op rest ih =>
    refine le_trans ?_ (ih (step s op))
    cases op with
    | save urls tc tu =>
      simp only [step, SaveLinks_eq]
      omega
    | update id url st now =>
      simp only [step]
      rcases mapGet_step_update s id url st now with heq | ⟨_, _, _, _, _, heq⟩ <;> rw [heq]

/-- Without a restart, and with the counter taken without wrap-around, the ids do
increase: a `SaveLinks` that follows another one, with any operations in between, returns
a larger id. -/
theorem SaveLinks_ids_increase (s : fileStorage) (urls urls' : List String)
    (tc tu tc' tu' : Time) (ops : List Op) :
    (s.SaveLinks urls tc tu).2.1 <
      ((run (s.SaveLinks urls tc tu).1 ops).SaveLinks urls' tc' tu').2.1 := by
  have h := run_nextID_le ops (s.SaveLinks urls tc tu).1
  simp only [SaveLinks_eq] at h ⊢
  omega

/-- Without a restart `SaveLinks` replaces no set: in a store reached from a fresh one no
set is stored under the counter `nextID`. -/
theorem Reachable_nextID_free (s : fileStorage) (hs : Reachable s) :
    s.GetLinkSet s.nextID = none := by
  cases hg : s.GetLinkSet s.nextID with
  | none => rfl
  | some set => exact absurd (Reachable_ids_below s hs _ set hg) (lt_irrefl _)

/-- C1 at the failing input: a fresh store saves ["a.com"] under id 1 and is restarted;
the next `SaveLinks` returns 1 again and the set stored under 1 is replaced. -/
theorem SaveLinks_reuses_id_after_restart :
    ((NewFileStorage "links.json").SaveLinks ["a.com"] 0 0).2.1 = 1 ∧
    (((NewFileStorage "links.json").SaveLinks ["a.com"] 0 0).1.Backup File.missing true).2 = none ∧
    ((NewFileStorage "links.json").Restore
      (((NewFileStorage "links.json").SaveLinks ["a.com"] 0 0).1.Backup File.missing true).1).2
      = none ∧
    (restart ((NewFileStorage "links.json").SaveLinks ["a.com"] 0 0).1).GetLinkSet 1 =
      some { ID := 1, Links := [{ URL := "http://a.com", Status := StatusPending }],
             CreatedAt := 0, UpdatedAt := 0 } ∧
    ((restart ((NewFileStorage "links.json").SaveLinks ["a.com"] 0 0).1).SaveLinks
      ["b.com"] 1 1).2.1 = 1 ∧
    ((restart ((NewFileStorage "links.json").SaveLinks ["a.com"] 0 0).1).SaveLinks
      ["b.com"] 1 1).1.GetLinkSet 1 =
      some { ID := 1, Links := [{ URL := "http://b.com", Status := StatusPending }],
             CreatedAt := 1, UpdatedAt := 1 } := by
  decide

/-- C2 at the failing input: a store with one set and `nextID = 2` is backed up and
restored into a new store; the sets are the same and `nextID` is 1, not 2. -/
theorem Restore_Backup_resets_nextID :
    ((NewFileStorage "links.json").SaveLinks ["a.com"] 0 0).1.nextID = 2 ∧
    (((NewFileStorage "links.json").SaveLinks ["a.com"] 0 0).1.Backup File.missing true).1 =
      File.object
        [("sets", JSONValue.setsObject
            [(1, { ID := 1, Links := [{ URL := "http://a.com", Status := StatusPending }],
                   CreatedAt := 0, UpdatedAt := 0 })]),
         ("next_id", JSONValue.number 2)] ∧
    ((NewFileStorage "links.json").Restore
      (((NewFileStorage "links.json").SaveLinks ["a.com"] 0 0).1.Backup File.missing true).1).2
      = none ∧
    ((NewFileStorage "links.json").Restore
      (((NewFileStorage "links.json").SaveLinks ["a.com"] 0 0).1.Backup File.missing true).1).1.sets
      = ((NewFileStorage "links.json").SaveLinks ["a.com"] 0 0).1.sets ∧
    ((NewFileStorage "links.json").Restore
      (((NewFileStorage "links.json").SaveLinks ["a.com"] 0 0).1.Backup File.missing true).1).1.nextID
      = 1 := by
  decide

end storage
